import Mathlib

/-!
Shallow embedding of `Method.cpp` from the hidl compiler (the method model and
signature/code-emission engine), together with proofs of the specification's
claims about it.

Modelling conventions:
- `status_t` is `Int`, with `OK = 0` as in the source.
- The collaborator `Type` objects (external to this file's source) are modelled
  by `TypeModel`, recording exactly the queries `Method.cpp` makes of them:
  `isElidableType`, `isJavaCompatible`, the per-backend renderers, and the
  statuses their `evaluate`/`validate` routines return.
- The text-emission `Formatter` is a `String` accumulator; an emission routine
  (`std::function<void(Formatter&)>`) is a `Formatter → Formatter`, and a null
  `std::function` is `none` in an `Option`.
- A fatal `CHECK(...)` aborts the process; a function guarded by a `CHECK` is
  embedded as returning `Option`, with `none` for the fatal-assertion outcome.
- `Method::evaluate`/`Method::validate` call collaborator routines in a loop;
  to reason about which collaborator routines get invoked, the embedding
  returns, next to the `status_t` result, the instrumentation trace of the
  elements whose routine was invoked, in invocation order.
-/

/-- `status_t` success value, as in the source. -/
def OK : Int := 0

/-- Model of a collaborator `Type` as seen from `Method.cpp`: the queries the
method model makes of the type system. -/
structure TypeModel where
  isElidableType : Bool
  isJavaCompatible : Bool
  evalStatus : Int
  validateStatus : Int
  getCppArgumentType : Bool → String
  getCppResultType : Bool → String
  getJavaType : String

/-- Model of `NamedReference<Type>`: a named binding of a declared type to an
argument or result slot. -/
structure NamedRef where
  name : String
  type : TypeModel

/-- Model of an `Annotation` as seen from `Method.cpp`. -/
structure Annot where
  evalStatus : Int
  validateStatus : Int
  dumpText : String

/-- The implementation roles (`MethodImplType` in the source). -/
inductive MethodImplType where
  | IMPL_INTERFACE
  | IMPL_PROXY
  | IMPL_STUB
  | IMPL_STUB_IMPL
deriving DecidableEq, Repr

/-- An emission routine stored in a backend implementation map; `none` models a
null `std::function` (a declared no-op marker). -/
abbrev ImplFn : Type := Option (String → String)

/-- A backend implementation map `MethodImpl`: roles mapped to emission
routines (`std::map<MethodImplType, MethodImplFn>`). -/
abbrev MethodImpl : Type := List (MethodImplType × ImplFn)

/-- `std::map::find` on an implementation map. -/
def lookupImpl (m : MethodImpl) (t : MethodImplType) : Option ImplFn :=
  match m with
  | [] => none
  | (k, v) :: rest => if k = t then some v else lookupImpl rest t

/-- The `Method` entity: name, arguments, results, one-way flag, annotations,
and the reserved-method state (`mIsHidlReserved`, `mSerial`, the two backend
implementation maps). -/
structure Method where
  mName : String
  mArgs : List NamedRef
  mResults : List NamedRef
  mOneway : Bool
  mAnnots : List Annot
  mIsHidlReserved : Bool := false
  mSerial : Nat := 0
  mCppImpl : MethodImpl := []
  mJavaImpl : MethodImpl := []

def Method.name (m : Method) : String := m.mName

def Method.args (m : Method) : List NamedRef := m.mArgs

def Method.results (m : Method) : List NamedRef := m.mResults

def Method.isHidlReserved (m : Method) : Bool := m.mIsHidlReserved

/-- `Method::canElideCallback`: the single result, when there is exactly one
result and its type is elidable; `nullptr` (here `none`) otherwise. -/
def Method.canElideCallback (m : Method) : Option NamedRef :=
  if h : m.mResults.length = 1 then
    let typedVar := m.mResults.get ⟨0, by omega⟩
    if typedVar.type.isElidableType then some typedVar else none
  else
    none

/-- The `Formatter` text-emission sink, as the text accumulated so far. -/
abbrev Formatter : Type := String

/-- The file-static `emitCppArgResultSignature`: renders each typed reference
as `<cppArgumentType> <name>`, joined by `, ` (the `Formatter::join` call). -/
def emitCppArgResultSignature (out : Formatter) (args : List NamedRef)
    (specifyNamespaces : Bool) : Formatter :=
  out ++ String.intercalate ", "
    (args.map fun arg =>
      arg.type.getCppArgumentType specifyNamespaces ++ " " ++ arg.name)

/-- `Method::emitCppArgSignature`: the explicit arguments, then — when results
exist and the callback is not elided — the trailing callback parameter
`<name>_cb _hidl_cb`, comma-separated from prior arguments if any exist. -/
def Method.emitCppArgSignature (m : Method) (out : Formatter)
    (specifyNamespaces : Bool) : Formatter :=
  let out1 := emitCppArgResultSignature out m.mArgs specifyNamespaces
  let returnsValue := !m.mResults.isEmpty
  let elidedReturn := m.canElideCallback
  if returnsValue && elidedReturn.isNone then
    let out2 := if !m.mArgs.isEmpty then out1 ++ ", " else out1
    out2 ++ m.name ++ "_cb _hidl_cb"
  else
    out1

/-- `Method::hasEmptyCppArgSignature`: no arguments and (no results or the
callback is elided). -/
def Method.hasEmptyCppArgSignature (m : Method) : Bool :=
  m.args.isEmpty && (m.results.isEmpty || m.canElideCallback.isSome)

/-- An element of a semantic-analysis pass: the i-th argument, result, or
annotation of the method (instrumentation labels for the pass traces). -/
inductive PassElem where
  | arg (i : Nat)
  | result (i : Nat)
  | annot (i : Nat)
deriving DecidableEq, Repr

/-- One loop of `Method::evaluate`/`Method::validate`: invoke each element's
routine in order; on the first status `≠ OK` stop and return it. The second
component is the trace of elements whose routine was invoked. -/
def runPass : List (PassElem × Int) → Int × List PassElem
  | [] => (OK, [])
  | (e, st) :: rest =>
    if st ≠ OK then (st, [e])
    else
      let r := runPass rest
      (r.1, e :: r.2)

/-- The elements `Method::evaluate` walks, in source order (arguments, then
results, then annotations), paired with the status each routine returns. -/
def Method.evalElems (m : Method) : List (PassElem × Int) :=
  (m.mArgs.enum.map fun p => (PassElem.arg p.1, p.2.type.evalStatus)) ++
  (m.mResults.enum.map fun p => (PassElem.result p.1, p.2.type.evalStatus)) ++
  (m.mAnnots.enum.map fun p => (PassElem.annot p.1, p.2.evalStatus))

/-- The elements `Method::validate` walks, in source order, paired with the
status each routine returns. -/
def Method.validElems (m : Method) : List (PassElem × Int) :=
  (m.mArgs.enum.map fun p => (PassElem.arg p.1, p.2.type.validateStatus)) ++
  (m.mResults.enum.map fun p => (PassElem.result p.1, p.2.type.validateStatus)) ++
  (m.mAnnots.enum.map fun p => (PassElem.annot p.1, p.2.validateStatus))

/-- `Method::evaluate`: arguments, then results, then annotations, returning
the first error; instrumented with the trace of invoked routines. -/
def Method.evaluate (m : Method) : Int × List PassElem := runPass m.evalElems

/-- `Method::validate`: arguments, then results, then annotations, returning
the first error; instrumented with the trace of invoked routines. -/
def Method.validate (m : Method) : Int × List PassElem := runPass m.validElems

/-- `Method::fillImplementation`: promote to reserved, storing the serial and
the two backend maps; then `CHECK` that the managed map has no
`IMPL_STUB_IMPL` entry and that the native map does not hold both `IMPL_STUB`
and `IMPL_STUB_IMPL`. A failed `CHECK` is fatal, modelled as `none`. -/
def Method.fillImplementation (m : Method) (serial : Nat)
    (cppMap javaMap : MethodImpl) : Option Method :=
  let m1 : Method :=
    { m with mIsHidlReserved := true, mSerial := serial,
             mCppImpl := cppMap, mJavaImpl := javaMap }
  if (lookupImpl javaMap MethodImplType.IMPL_STUB_IMPL).isNone &&
     ((lookupImpl cppMap MethodImplType.IMPL_STUB_IMPL).isNone ||
      (lookupImpl cppMap MethodImplType.IMPL_STUB).isNone) then
    some m1
  else
    none

/-- `Method::setSerialId`: `CHECK(!mIsHidlReserved)` (fatal on a reserved
method, modelled as `none`), then store the serial. -/
def Method.setSerialId (m : Method) (serial : Nat) : Option Method :=
  if m.mIsHidlReserved then none
  else some { m with mSerial := serial }

def Method.getSerialId (m : Method) : Nat := m.mSerial

/-- `Method::cppImpl`: `CHECK(mIsHidlReserved)` (modelled as `none`), then
look the role up in the native map; run the routine when one is registered
and non-null, emit nothing otherwise. -/
def Method.cppImpl (m : Method) (t : MethodImplType) (out : Formatter) :
    Option Formatter :=
  if m.mIsHidlReserved then
    some (match lookupImpl m.mCppImpl t with
          | some (some f) => f out
          | some none => out
          | none => out)
  else
    none

/-- `Method::javaImpl`: `CHECK(mIsHidlReserved)` (modelled as `none`), then
look the role up in the managed map; run the routine when one is registered
and non-null, emit nothing otherwise. -/
def Method.javaImpl (m : Method) (t : MethodImplType) (out : Formatter) :
    Option Formatter :=
  if m.mIsHidlReserved then
    some (match lookupImpl m.mJavaImpl t with
          | some (some f) => f out
          | some none => out
          | none => out)
  else
    none

/-- `Method::overridesCppImpl`: `CHECK(mIsHidlReserved)` (modelled as `none`),
then whether the role is present in the native map. -/
def Method.overridesCppImpl (m : Method) (t : MethodImplType) : Option Bool :=
  if m.mIsHidlReserved then some (lookupImpl m.mCppImpl t).isSome
  else none

/-- `Method::overridesJavaImpl`: `CHECK(mIsHidlReserved)` (modelled as
`none`), then whether the role is present in the managed map. -/
def Method.overridesJavaImpl (m : Method) (t : MethodImplType) : Option Bool :=
  if m.mIsHidlReserved then some (lookupImpl m.mJavaImpl t).isSome
  else none

/-- `Method::isHiddenFromJava`: reserved and named exactly `debug`. -/
def Method.isHiddenFromJava (m : Method) : Bool :=
  m.isHidlReserved && m.name == "debug"

/-- `Method::isJavaCompatible`: methods hidden from the managed backend are
reported compatible; otherwise every argument and every result type must be
managed-backend-compatible. -/
def Method.isJavaCompatible (m : Method) : Bool :=
  if m.isHiddenFromJava then true
  else if !(m.mArgs.all fun arg => arg.type.isJavaCompatible) then false
  else if !(m.mResults.all fun arg => arg.type.isJavaCompatible) then false
  else true

/-- `TypedVarVector`: an ordered vector of typed references together with the
`std::set` of names already inserted. -/
structure TypedVarVector where
  elems : List NamedRef := []
  mNames : List String := []

/-- `TypedVarVector::add`: `mNames.emplace(v->name())` succeeds only when the
name is new; on success push the reference at the back and return true,
otherwise return false without inserting. -/
def TypedVarVector.add (tv : TypedVarVector) (v : NamedRef) :
    Bool × TypedVarVector :=
  if v.name ∈ tv.mNames then
    (false, tv)
  else
    (true, { elems := tv.elems ++ [v], mNames := v.name :: tv.mNames })

/-- A concrete elidable, managed-compatible type (for concrete instances). -/
def exTy : TypeModel :=
  { isElidableType := true, isJavaCompatible := true, evalStatus := OK,
    validateStatus := OK, getCppArgumentType := fun _ => "int32_t",
    getCppResultType := fun _ => "int32_t", getJavaType := "int" }

/-- A concrete typed reference named `a`. -/
def exRefA : NamedRef := { name := "a", type := exTy }

/-- A concrete typed reference named `x`. -/
def exRefX : NamedRef := { name := "x", type := exTy }

/-- A concrete non-reserved method. -/
def exPlain : Method :=
  { mName := "foo", mArgs := [], mResults := [exRefX], mOneway := false,
    mAnnots := [] }

/-- A concrete reserved method with empty implementation maps. -/
def exReserved : Method :=
  { mName := "ping", mArgs := [], mResults := [], mOneway := false,
    mAnnots := [], mIsHidlReserved := true }

/-- A concrete reserved method whose native and managed maps register a role
with a null emission routine. -/
def exReservedNull : Method :=
  { mName := "ping", mArgs := [], mResults := [], mOneway := false,
    mAnnots := [], mIsHidlReserved := true,
    mCppImpl := [(MethodImplType.IMPL_STUB, none)],
    mJavaImpl := [(MethodImplType.IMPL_INTERFACE, none)] }

/-- An empty `TypedVarVector`. -/
def emptyTVV : TypedVarVector := {}

/-- `canElideCallback` computed by shape of the result list (shared helper). -/
lemma canElideCallback_eq (m : Method) :
    m.canElideCallback =
      match m.mResults with
      | [r] => if r.type.isElidableType then some r else none
      | _ => none := by
  rcases hres : m.mResults with _ | ⟨a, _ | ⟨b, rest⟩⟩ <;>
    simp [Method.canElideCallback, hres]

/-- `canElideCallback` is `some` exactly on a singleton elidable result
(shared helper). -/
lemma canElideCallback_some_iff (m : Method) (r : NamedRef) :
    m.canElideCallback = some r ↔
      m.mResults = [r] ∧ r.type.isElidableType = true := by
  rw [canElideCallback_eq]
  rcases hres : m.mResults with _ | ⟨a, _ | ⟨b, rest⟩⟩
  · simp
  · by_cases ha : a.type.isElidableType = true
    · simp only [ha, if_pos rfl]
      constructor
      · rintro h
        cases h
        exact ⟨rfl, ha⟩
      · rintro ⟨h, _⟩
        cases h
        rfl
    · simp only [Bool.not_eq_true] at ha
      simp only [ha, Bool.false_eq_true, if_false]
      constructor
      · rintro h
        cases h
      · rintro ⟨h, helid⟩
        cases h
        rw [ha] at helid
        cases helid
  · simp

/-- `canElideCallback` is `some` exactly when a singleton elidable result
exists (shared helper, `isSome` form). -/
lemma canElideCallback_isSome_iff (m : Method) :
    m.canElideCallback.isSome = true ↔
      ∃ r : NamedRef, m.mResults = [r] ∧ r.type.isElidableType = true := by
  rw [Option.isSome_iff_exists]
  constructor
  · rintro ⟨r, hr⟩
    exact ⟨r, (canElideCallback_some_iff m r).mp hr⟩
  · rintro ⟨r, hr⟩
    exact ⟨r, (canElideCallback_some_iff m r).mpr hr⟩

/-- Claim C1: for every method, `canElideCallback()` returns its single result
if and only if the method has exactly one result and that result's type is
elidable; with zero results, more than one result, or a single result of
non-elidable type, it returns none. -/
theorem canElideCallback_correct (m : Method) :
    (∀ r : NamedRef, m.canElideCallback = some r ↔
        m.mResults = [r] ∧ r.type.isElidableType = true) ∧
    (m.canElideCallback = none ↔
        ∀ r : NamedRef, m.mResults = [r] → r.type.isElidableType = false) := by
  refine ⟨fun r => canElideCallback_some_iff m r, ?_⟩
  rw [canElideCallback_eq]
  rcases hres : m.mResults with _ | ⟨a, _ | ⟨b, rest⟩⟩
  · simp
  · by_cases ha : a.type.isElidableType = true
    · simp [ha]
    · simp only [Bool.not_eq_true] at ha
      simp [ha]
  · simp

/-- Claim C2: for every method, the emitted native argument signature is the
comma-joined explicit arguments, followed — exactly when results are non-empty
and the callback is not elided — by the trailing callback parameter
`<name>_cb _hidl_cb`, preceded by a `", "` separator exactly when the explicit
argument list is non-empty; nothing is appended otherwise. -/
theorem emitCppArgSignature_correct (m : Method) (out : Formatter) (sn : Bool) :
    m.emitCppArgSignature out sn =
      emitCppArgResultSignature out m.mArgs sn ++
        (if m.mResults.isEmpty || m.canElideCallback.isSome then ""
         else (if m.mArgs.isEmpty then "" else ", ") ++ m.mName ++ "_cb _hidl_cb") := by
  cases h1 : m.mResults.isEmpty <;> cases h2 : m.canElideCallback <;>
    cases h3 : m.mArgs.isEmpty <;>
      simp [Method.emitCppArgSignature, Method.name, h1, h2, h3,
        String.append_empty, String.append_assoc]

/-- Claim C7: for every method, `hasEmptyCppArgSignature()` is true iff the
argument list is empty and (the result list is empty or the callback is
elided, i.e. the results are a singleton of elidable type). -/
theorem hasEmptyCppArgSignature_correct (m : Method) :
    m.hasEmptyCppArgSignature = true ↔
      m.mArgs = [] ∧
        (m.mResults = [] ∨
          ∃ r : NamedRef, m.mResults = [r] ∧ r.type.isElidableType = true) := by
  rw [Method.hasEmptyCppArgSignature]
  rw [Bool.and_eq_true, Bool.or_eq_true]
  rw [canElideCallback_isSome_iff]
  simp [Method.args, Method.results, List.isEmpty_iff]

/-- `runPass` either succeeds having invoked every element, or stops at the
first failing element, invoking exactly the elements up to and including it
(shared helper). -/
lemma runPass_cases (l : List (PassElem × Int)) :
    ((∀ p ∈ l, p.2 = OK) ∧ runPass l = (OK, l.map Prod.fst)) ∨
    (∃ pre e post, l = pre ++ e :: post ∧ (∀ p ∈ pre, p.2 = OK) ∧ e.2 ≠ OK ∧
      runPass l = (e.2, (pre ++ [e]).map Prod.fst)) := by
  induction l with
  | nil => exact Or.inl ⟨by simp, rfl⟩
  | cons a rest ih =>
    by_cases ha : a.2 = OK
    · rcases ih with ⟨hall, heq⟩ | ⟨pre, e, post, hsplit, hpre, he, heq⟩
      · refine Or.inl ⟨?_, ?_⟩
        · intro p hp
          rcases List.mem_cons.mp hp with h | h
          · rw [h]; exact ha
          · exact hall p h
        · rcases a with ⟨e0, st0⟩
          simp only at ha
          simp [runPass, ha, heq]
      · refine Or.inr ⟨a :: pre, e, post, by rw [hsplit, List.cons_append], ?_, he, ?_⟩
        · intro p hp
          rcases List.mem_cons.mp hp with h | h
          · rw [h]; exact ha
          · exact hpre p h
        · rcases a with ⟨e0, st0⟩
          simp only at ha
          simp [runPass, ha, heq]
    · refine Or.inr ⟨[], a, rest, by simp, by simp, ha, ?_⟩
      rcases a with ⟨e0, st0⟩
      simp only at ha
      simp [runPass, ha]

/-- Claim C3: both `evaluate()` and `validate()` walk arguments, then results,
then annotations (the order fixed by `evalElems`/`validElems`); each either
succeeds with `OK` having invoked every element's routine, or returns the
error of the first failing element having invoked exactly the routines up to
and including that element, and no later one. -/
theorem evaluate_validate_fail_fast (m : Method) :
    (((∀ p ∈ m.evalElems, p.2 = OK) ∧
        m.evaluate = (OK, m.evalElems.map Prod.fst)) ∨
      (∃ pre e post, m.evalElems = pre ++ e :: post ∧
        (∀ p ∈ pre, p.2 = OK) ∧ e.2 ≠ OK ∧
        m.evaluate = (e.2, (pre ++ [e]).map Prod.fst))) ∧
    (((∀ p ∈ m.validElems, p.2 = OK) ∧
        m.validate = (OK, m.validElems.map Prod.fst)) ∨
      (∃ pre e post, m.validElems = pre ++ e :: post ∧
        (∀ p ∈ pre, p.2 = OK) ∧ e.2 ≠ OK ∧
        m.validate = (e.2, (pre ++ [e]).map Prod.fst))) :=
  ⟨runPass_cases m.evalElems, runPass_cases m.validElems⟩

/-- Claim C4 counterexample: setting `serialId` a second time on a
non-reserved method is not rejected — both calls succeed and the second value
stands. -/
theorem setSerialId_twice_counterexample :
    ((exPlain.setSerialId 1).bind fun m1 => m1.setSerialId 2).map
        Method.getSerialId = some 2 := rfl

/-- Claim C4 (amended): `setSerialId` asserts (fatally) that the method is not
reserved and otherwise stores the serial — it does not itself reject a second
assignment on a non-reserved method; reserved methods receive their serial
only through `fillImplementation`. -/
theorem setSerialId_spec (m : Method) (serial : Nat) :
    (m.mIsHidlReserved = true → m.setSerialId serial = none) ∧
    (m.mIsHidlReserved = false →
      (m.setSerialId serial).map Method.getSerialId = some serial) ∧
    (∀ s cppMap javaMap m', m.fillImplementation s cppMap javaMap = some m' →
      m'.mIsHidlReserved = true ∧ m'.mSerial = s) := by
  refine ⟨fun h => by simp [Method.setSerialId, h],
    fun h => by simp [Method.setSerialId, Method.getSerialId, h], ?_⟩
  intro s cppMap javaMap m' h
  simp only [Method.fillImplementation] at h
  split at h
  · cases h
    exact ⟨rfl, rfl⟩
  · cases h

/-- Witness for the amended C4 theorem at concrete methods. -/
theorem setSerialId_spec_witness :
    (({ exPlain with mIsHidlReserved := true } : Method).setSerialId 5 = none) ∧
    ((exPlain.setSerialId 5).map Method.getSerialId = some 5) :=
  ⟨(setSerialId_spec { exPlain with mIsHidlReserved := true } 5).1 rfl,
   (setSerialId_spec exPlain 5).2.1 rfl⟩

/-- Claim C5: `fillImplementation` survives its assertions exactly when the
managed map has no `IMPL_STUB_IMPL` entry and the native map does not contain
both `IMPL_STUB` and `IMPL_STUB_IMPL` at once. -/
theorem fillImplementation_asserts (m : Method) (serial : Nat)
    (cppMap javaMap : MethodImpl) :
    (m.fillImplementation serial cppMap javaMap).isSome = true ↔
      (lookupImpl javaMap MethodImplType.IMPL_STUB_IMPL = none ∧
       (lookupImpl cppMap MethodImplType.IMPL_STUB_IMPL = none ∨
        lookupImpl cppMap MethodImplType.IMPL_STUB = none)) := by
  have hcond : ((lookupImpl javaMap MethodImplType.IMPL_STUB_IMPL).isNone &&
      ((lookupImpl cppMap MethodImplType.IMPL_STUB_IMPL).isNone ||
       (lookupImpl cppMap MethodImplType.IMPL_STUB).isNone)) = true ↔
      (lookupImpl javaMap MethodImplType.IMPL_STUB_IMPL = none ∧
       (lookupImpl cppMap MethodImplType.IMPL_STUB_IMPL = none ∨
        lookupImpl cppMap MethodImplType.IMPL_STUB = none)) := by
    simp [Bool.and_eq_true, Bool.or_eq_true, Option.isNone_iff_eq_none]
  rw [← hcond]
  simp only [Method.fillImplementation]
  split <;> rename_i h
  · simp [h]
  · simp [h]

/-- Claim C6: for a reserved method, looking a role absent from a backend map
up via `cppImpl`/`javaImpl` emits nothing and signals no error; invoking any
of the four reserved-dispatch entry points on a non-reserved method trips the
entry assertion (modelled as `none`). -/
theorem reservedDispatch_guarded (m : Method) (t : MethodImplType)
    (out : Formatter) :
    (m.mIsHidlReserved = true → lookupImpl m.mCppImpl t = none →
        m.cppImpl t out = some out) ∧
    (m.mIsHidlReserved = true → lookupImpl m.mJavaImpl t = none →
        m.javaImpl t out = some out) ∧
    (m.mIsHidlReserved = false →
        m.cppImpl t out = none ∧ m.javaImpl t out = none ∧
        m.overridesCppImpl t = none ∧ m.overridesJavaImpl t = none) := by
  refine ⟨fun hr hl => ?_, fun hr hl => ?_, fun hr => ?_⟩
  · simp [Method.cppImpl, hr, hl]
  · simp [Method.javaImpl, hr, hl]
  · simp [Method.cppImpl, Method.javaImpl, Method.overridesCppImpl,
      Method.overridesJavaImpl, hr]

/-- Witness for the C6 theorem at a concrete reserved method with empty maps
and a concrete non-reserved method. -/
theorem reservedDispatch_guarded_witness :
    exReserved.cppImpl MethodImplType.IMPL_PROXY "" = some "" ∧
    exReserved.javaImpl MethodImplType.IMPL_PROXY "" = some "" ∧
    exPlain.cppImpl MethodImplType.IMPL_PROXY "" = none :=
  ⟨(reservedDispatch_guarded exReserved MethodImplType.IMPL_PROXY "").1 rfl rfl,
   (reservedDispatch_guarded exReserved MethodImplType.IMPL_PROXY "").2.1 rfl rfl,
   ((reservedDispatch_guarded exPlain MethodImplType.IMPL_PROXY "").2.2 rfl).1⟩

/-- Claim C10: on a reserved method, a role registered with a null emission
routine is reported as an override (`some true`) while its emission leaves the
sink unchanged; an unregistered role is also silent but reported as no
override (`some false`). -/
theorem nullImplRole_reported_but_silent (m : Method) (t : MethodImplType)
    (out : Formatter) (h : m.mIsHidlReserved = true) :
    (lookupImpl m.mCppImpl t = some none →
        m.overridesCppImpl t = some true ∧ m.cppImpl t out = some out) ∧
    (lookupImpl m.mCppImpl t = none →
        m.overridesCppImpl t = some false ∧ m.cppImpl t out = some out) ∧
    (lookupImpl m.mJavaImpl t = some none →
        m.overridesJavaImpl t = some true ∧ m.javaImpl t out = some out) ∧
    (lookupImpl m.mJavaImpl t = none →
        m.overridesJavaImpl t = some false ∧ m.javaImpl t out = some out) := by
  refine ⟨fun hl => ?_, fun hl => ?_, fun hl => ?_, fun hl => ?_⟩ <;>
    simp [Method.overridesCppImpl, Method.overridesJavaImpl, Method.cppImpl,
      Method.javaImpl, h, hl]

/-- Witness for the C10 theorem at a concrete reserved method registering
`IMPL_STUB` with a null routine. -/
theorem nullImplRole_witness :
    exReservedNull.overridesCppImpl MethodImplType.IMPL_STUB = some true ∧
    exReservedNull.cppImpl MethodImplType.IMPL_STUB "" = some "" ∧
    exReservedNull.overridesCppImpl MethodImplType.IMPL_PROXY = some false := by
  have h := nullImplRole_reported_but_silent exReservedNull
    MethodImplType.IMPL_STUB "" rfl
  have h2 := nullImplRole_reported_but_silent exReservedNull
    MethodImplType.IMPL_PROXY "" rfl
  exact ⟨(h.1 rfl).1, (h.1 rfl).2, (h2.2.1 rfl).1⟩

/-- `isHiddenFromJava` holds exactly on reserved methods named `debug`
(shared helper). -/
lemma isHiddenFromJava_eq_true_iff (m : Method) :
    m.isHiddenFromJava = true ↔
      (m.mIsHidlReserved = true ∧ m.mName = "debug") := by
  simp [Method.isHiddenFromJava, Method.isHidlReserved, Method.name]

/-- Claim C9: a reserved method named exactly `debug` is reported
managed-backend-compatible regardless of its argument and result types; any
other method is reported compatible iff every argument type and every result
type is managed-backend-compatible. -/
theorem isJavaCompatible_correct (m : Method) :
    m.isJavaCompatible = true ↔
      ((m.mIsHidlReserved = true ∧ m.mName = "debug") ∨
       ((∀ a ∈ m.mArgs, a.type.isJavaCompatible = true) ∧
        (∀ r ∈ m.mResults, r.type.isJavaCompatible = true))) := by
  rw [Method.isJavaCompatible]
  by_cases hh : m.isHiddenFromJava = true
  · simp [hh, (isHiddenFromJava_eq_true_iff m).mp hh]
  · have hh2 : ¬(m.mIsHidlReserved = true ∧ m.mName = "debug") := by
      rw [← isHiddenFromJava_eq_true_iff]
      exact hh
    simp only [Bool.not_eq_true] at hh
    cases hA : m.mArgs.all (fun arg => arg.type.isJavaCompatible) <;>
      cases hR : m.mResults.all (fun arg => arg.type.isJavaCompatible) <;>
        simp [hh, hh2, hA, hR, ← List.all_eq_true]

/-- `TypedVarVector` name-set consistency: `mNames` holds exactly the names of
the stored references (shared helper predicate, stated inline in theorems). -/
lemma typedVarVector_names_empty :
    ∀ n, n ∈ emptyTVV.mNames ↔ n ∈ emptyTVV.elems.map NamedRef.name := by
  intro n
  simp [emptyTVV]

/-- Claim C8: on a collection whose name set matches its contents, `add`
returns false and leaves the collection unchanged when a reference with the
same name is present, and otherwise returns true, appends the reference
(growing the size by one), and preserves name-set consistency. -/
theorem typedVarVector_add_correct (tv : TypedVarVector) (v : NamedRef)
    (hwf : ∀ n, n ∈ tv.mNames ↔ n ∈ tv.elems.map NamedRef.name) :
    ((∃ w ∈ tv.elems, w.name = v.name) → tv.add v = (false, tv)) ∧
    ((∀ w ∈ tv.elems, w.name ≠ v.name) →
      (tv.add v).1 = true ∧ (tv.add v).2.elems = tv.elems ++ [v] ∧
      (tv.add v).2.elems.length = tv.elems.length + 1 ∧
      (∀ n, n ∈ (tv.add v).2.mNames ↔
        n ∈ (tv.add v).2.elems.map NamedRef.name)) := by
  constructor
  · rintro ⟨w, hw, hname⟩
    have hmem : v.name ∈ tv.mNames :=
      (hwf v.name).mpr (List.mem_map.mpr ⟨w, hw, hname⟩)
    simp [TypedVarVector.add, hmem]
  · intro hnone
    have hmem : v.name ∉ tv.mNames := by
      rw [hwf v.name, List.mem_map]
      rintro ⟨w, hw, hname⟩
      exact hnone w hw hname
    refine ⟨by simp [TypedVarVector.add, hmem],
      by simp [TypedVarVector.add, hmem],
      by simp [TypedVarVector.add, hmem], ?_⟩
    intro n
    simp only [TypedVarVector.add, hmem, if_neg hmem]
    simp [hwf n, or_comm]

/-- Witness for the C8 theorem: a fresh insert succeeds and grows the
collection; the immediate duplicate insert is rejected and changes nothing. -/
theorem typedVarVector_add_witness :
    (emptyTVV.add exRefA).1 = true ∧
    (emptyTVV.add exRefA).2.elems.length = 1 ∧
    ((emptyTVV.add exRefA).2.add exRefA = (false, (emptyTVV.add exRefA).2)) := by
  have h := (typedVarVector_add_correct emptyTVV exRefA
    typedVarVector_names_empty).2 (by intro w hw; simp [emptyTVV] at hw)
  have hdup := (typedVarVector_add_correct (emptyTVV.add exRefA).2 exRefA
    h.2.2.2).1 ⟨exRefA, by rw [h.2.1]; simp [emptyTVV], rfl⟩
  exact ⟨h.1, by rw [h.2.2.1]; rfl, hdup⟩
